import Mathlib

/-
Verification of the Clipping_tool caption overlay and clip export engine.

Shallow embedding conventions:
  * JS numbers are modelled as rationals (ℚ); the constant 0.9 in the
    word-highlight fallback is the exact rational 9/10.
  * JS strings are Lean `String`s; the character-level operations of the
    source (regex replace, split) are modelled over `String.data`
    (`List Char`).
  * React state and DOM/MediaRecorder state are gathered into an explicit
    `PlayerState` record; each event handler of the source becomes a state
    transition function.
-/

/-- The `Caption` interface of `types.ts`.  The `start`/`end` display strings
of the source are named `startStr`/`endStr` (`end` is a Lean keyword). -/
structure Caption where
  text : String
  startStr : String
  endStr : String
  startSeconds : ℚ
  endSeconds : ℚ
deriving DecidableEq

/-- The `Clip` interface of `types.ts`. -/
structure Clip where
  id : String
  title : String
  startTime : String
  endTime : String
  startSeconds : ℚ
  endSeconds : ℚ
  description : String
  viralScore : ℤ
  captions : List Caption
deriving DecidableEq

/-- The acceptance test of the caption resolver, from
`activeClip.captions.findIndex(c => vidTime >= c.startSeconds && vidTime <= c.endSeconds)`. -/
def capMatches (t : ℚ) (c : Caption) : Bool :=
  decide (c.startSeconds ≤ t ∧ t ≤ c.endSeconds)

/-- The Caption Timing Resolver: the first caption of the active clip whose
window contains the current time (`findIndex` over the ordered caption
list), or none. -/
def findActiveCaption (captions : List Caption) (t : ℚ) : Option Caption :=
  captions.find? (capMatches t)

/-- A single whitespace character for the `split(/\s+/)` model. -/
def isWS (ch : Char) : Bool :=
  ch == ' ' || ch == '\t' || ch == '\n' || ch == '\r'

/-- Accumulator-style whitespace split: groups of consecutive
non-whitespace characters, in order. -/
def splitWsAux : List Char → List Char → List (List Char)
  | [], acc => if acc.isEmpty then [] else [acc.reverse]
  | ch :: rest, acc =>
    if isWS ch then
      if acc.isEmpty then splitWsAux rest []
      else acc.reverse :: splitWsAux rest []
    else splitWsAux rest (ch :: acc)

/-- Model of `text.trim().split(/\s+/)` in the render loop: whitespace-separated
words of the caption text.  A JS split of the empty (or all-whitespace)
string yields the one-element list [""], hence the fallback. -/
def jsWords (s : String) : List (List Char) :=
  let parts := splitWsAux s.data []
  if parts.isEmpty then [[]] else parts

/-- Model of `charDuration = captionDuration / Math.max(1, totalChars)` with
`totalChars = currentCaption.text.length` (the full text, spaces included). -/
def charDurationOf (c : Caption) : ℚ :=
  (c.endSeconds - c.startSeconds) / ((max 1 c.text.length : ℕ) : ℚ)

/-- The linear word walk of the render loop (lines 114–125 of the source):
each word occupies `[charAccumulator * charDuration,
(charAccumulator + wLen) * charDuration)` with `wLen = word.length + 1`
(one trailing space); the first word whose window contains `timePassed`
wins. -/
def wordWalk (charDuration timePassed : ℚ) :
    List (List Char) → ℕ → ℕ → Option ℕ
  | [], _, _ => none
  | w :: ws, charAccumulator, i =>
    if (charAccumulator : ℚ) * charDuration ≤ timePassed ∧
        timePassed < ((charAccumulator + (w.length + 1) : ℕ) : ℚ) * charDuration
    then some i
    else wordWalk charDuration timePassed ws (charAccumulator + (w.length + 1)) (i + 1)

/-- Model of `activeWordIndex` in the render loop: the linear walk, then the
`timePassed >= captionDuration * 0.9` last-word fallback; `none` models the
source's `-1` (no highlighted word). -/
def activeWordIndex (c : Caption) (vidTime : ℚ) : Option ℕ :=
  match wordWalk (charDurationOf c) (vidTime - c.startSeconds) (jsWords c.text) 0 0 with
  | some i => some i
  | none =>
    if (c.endSeconds - c.startSeconds) * (9 / 10) ≤ vidTime - c.startSeconds
    then some ((jsWords c.text).length - 1)
    else none

/-- Characters accumulated by the walk before word `m`: the sum of
`length + 1` over the first `m` words. -/
def accChars : List (List Char) → ℕ → ℕ
  | _, 0 => 0
  | [], _ + 1 => 0
  | w :: ws, m + 1 => (w.length + 1) + accChars ws m

/-- Word `m`'s time window (relative to base accumulator `a`) contains
`T`: the spec-side reading of one step of the walk. -/
def inWinFrom (cd T : ℚ) (ws : List (List Char)) (a m : ℕ) : Prop :=
  m < ws.length ∧
    ((a + accChars ws m : ℕ) : ℚ) * cd ≤ T ∧
    T < ((a + accChars ws (m + 1) : ℕ) : ℚ) * cd

instance (cd T : ℚ) (ws : List (List Char)) (a m : ℕ) :
    Decidable (inWinFrom cd T ws a m) := by
  unfold inWinFrom; exact inferInstance

/-- Word `m` of caption `c` is hit at absolute time `t` (base accumulator 0). -/
def wordHit (c : Caption) (t : ℚ) (m : ℕ) : Prop :=
  inWinFrom (charDurationOf c) (t - c.startSeconds) (jsWords c.text) 0 m

/-- The caption of the spec's test scenario (§8): text "this is a test",
window 12s–16s. -/
def captionTest : Caption :=
  { text := "this is a test", startStr := "0:12", endStr := "0:16"
    startSeconds := 12, endSeconds := 16 }

/-- Digit-string value, modelling JS `Number` on a digits-only string
(`Number("") = 0` corresponds to the empty fold). -/
def natOfDigits (cs : List Char) : ℕ :=
  cs.foldl (fun n ch => n * 10 + (ch.toNat - Char.toNat '0')) 0

/-- Model of `split(':')` over characters, JS semantics: `"".split(':') = [""]`
and a trailing colon yields a trailing empty part. -/
def splitColonAux : List Char → List Char → List (List Char)
  | [], acc => [acc.reverse]
  | ch :: rest, acc =>
    if ch == ':' then acc.reverse :: splitColonAux rest []
    else splitColonAux rest (ch :: acc)

/-- Model of `timeStr.replace(/[^0-9:]/g, '')` in `parseTime`. -/
def cleanTime (s : String) : List Char :=
  s.data.filter (fun ch => ch.isDigit || ch == ':')

/-- Model of `cleanStr.split(':').map(Number)` in `parseTime`. -/
def timeParts (s : String) : List ℚ :=
  (splitColonAux (cleanTime s) []).map (fun p => (natOfDigits p : ℚ))

/-- Model of `parseTime` in `geminiService.ts`: MM:SS / HH:MM:SS to seconds, 0 for
any other shape. -/
def parseTime (timeStr : String) : ℚ :=
  if timeStr = "" then 0
  else
    match timeParts timeStr with
    | [a, b] => a * 60 + b
    | [a, b, c] => a * 3600 + b * 60 + c
    | _ => 0

/-- One character of `title.replace(/[^a-z0-9]/gi, '_')`: ASCII
alphanumerics kept, everything else replaced by an underscore. -/
def sanitizeChar (ch : Char) : Char :=
  if ch.isAlphanum then ch else '_'

/-- The exported file's name, from `recorder.onstop`:
the sanitized clip title plus the hardcoded ".webm" extension. -/
def exportFileName (title : String) : String :=
  String.mk (title.data.map sanitizeChar) ++ ".webm"

/-- The MediaRecorder handle: absent (`mediaRecorderRef.current === null`),
recording, or `state === 'inactive'`. -/
inductive RecState
  | noRecorder
  | recording
  | inactive
deriving DecidableEq

/-- The player/export state touched by the handlers of `ClipResult`:
the video element's position and paused flag, the React state variables,
and the MediaRecorder.  `stopCount` counts `recorder.stop()` calls
(each one produces exactly one `onstop` finalize event), `chunks` the
buffered blob parts, `downloadCount`/`lastDownload` the triggered file
downloads, `errorLogged` the non-fatal console errors. -/
structure PlayerState where
  vidTime : ℚ
  paused : Bool
  isPlaying : Bool
  isExporting : Bool
  currentTime : ℚ
  progress : ℚ
  exportProgress : ℚ
  recState : RecState
  stopCount : ℕ
  chunks : ℕ
  downloadCount : ℕ
  lastDownload : Option String
  errorLogged : Bool
deriving DecidableEq

/-- Model of `finishExport`: stop the recorder and pause the video, but only if a
recorder exists and is not already inactive. -/
def finishExport (s : PlayerState) : PlayerState :=
  if s.recState = RecState.recording then
    { s with recState := RecState.inactive, stopCount := s.stopCount + 1,
             paused := true }
  else s

/-- Model of `handleTimeUpdate`: recompute the relative time and progress, handle
the clip-boundary condition (finalize during export, else pause + rewind +
stop), and update the export progress.  The `progress` field uses the
embedding's total rational division, which matches the source only while
the clip duration is nonzero; the degenerate zero-duration division of the
source (NaN / Infinity in JS) is modelled faithfully by `progressJS`. -/
def handleTimeUpdate (clip : Clip) (s : PlayerState) : PlayerState :=
  let clipDuration := clip.endSeconds - clip.startSeconds
  let currentClipTime := max 0 (s.vidTime - clip.startSeconds)
  let s1 : PlayerState :=
    { s with currentTime := currentClipTime,
             progress := currentClipTime / clipDuration * 100 }
  let s2 : PlayerState :=
    if clip.endSeconds ≤ s1.vidTime then
      if s1.isExporting then finishExport s1
      else { s1 with paused := true, vidTime := clip.startSeconds,
                     isPlaying := false }
    else s1
  if s2.isExporting then
    { s2 with exportProgress := currentClipTime / clipDuration * 100 }
  else s2

/-- Model of `handleDownloadClip`: enter export mode, clear the chunk buffer, pause
and seek to the clip start, start the recorder, then start playback;
`playFails` selects the promise-rejection path, whose catch handler only
logs the error and leaves export mode. -/
def handleDownloadClip (clip : Clip) (playFails : Bool) (s : PlayerState) : PlayerState :=
  let s1 : PlayerState :=
    { s with isExporting := true, exportProgress := 0, chunks := 0,
             paused := true, vidTime := clip.startSeconds,
             recState := RecState.recording }
  if playFails then { s1 with errorLogged := true, isExporting := false }
  else { s1 with paused := false }

/-- Model of `recorder.onstop`: assemble the blob, trigger the download named
`exportFileName clip.title`, leave export mode and rewind to the clip
start. -/
def recorderOnStop (clip : Clip) (s : PlayerState) : PlayerState :=
  { s with downloadCount := s.downloadCount + 1,
           lastDownload := some (exportFileName clip.title),
           isExporting := false, exportProgress := 0,
           vidTime := clip.startSeconds }

/-- A playback trace: each tick moves the video position to the tick's
time and fires `handleTimeUpdate`. -/
def runTicks (clip : Clip) (s : PlayerState) : List ℚ → PlayerState
  | [] => s
  | t :: ts => runTicks clip (handleTimeUpdate clip { s with vidTime := t }) ts

/-- The component's initial state: nothing playing, no recorder. -/
def initialState : PlayerState :=
  { vidTime := 0, paused := true, isPlaying := false, isExporting := false,
    currentTime := 0, progress := 0, exportProgress := 0,
    recState := RecState.noRecorder, stopCount := 0, chunks := 0,
    downloadCount := 0, lastDownload := none, errorLogged := false }

/-- The state right after a successful export start. -/
def exportStart (clip : Clip) : PlayerState :=
  handleDownloadClip clip false initialState

/-- The clip of the spec's test scenario (§8): 10s–40s. -/
def clipTest : Clip :=
  { id := "clip-0", title := "My Clip #1!", startTime := "0:10", endTime := "0:40",
    startSeconds := 10, endSeconds := 40, description := "spec scenario clip",
    viralScore := 8, captions := [captionTest] }

/-- A caption whose window (50s–55s) lies entirely outside `clipTest`'s
bounds. -/
def captionFar : Caption :=
  { text := "late", startStr := "0:50", endStr := "0:55",
    startSeconds := 50, endSeconds := 55 }

/-- A zero-length clip (`endSeconds = startSeconds`). -/
def clipZero : Clip :=
  { id := "clip-z", title := "zero", startTime := "0:05", endTime := "0:05",
    startSeconds := 5, endSeconds := 5, description := "", viralScore := 1,
    captions := [] }

/-- A mid-export state positioned at `clipTest`'s end boundary. -/
def sExport : PlayerState :=
  { initialState with vidTime := 40, isExporting := true,
                      recState := RecState.recording }

/-- A JS number for the one place the source can divide by zero: either a
finite value (kept exact), or one of the IEEE special values NaN and
±Infinity that JS division by zero produces. -/
inductive JSNum
  | num (q : ℚ)
  | nan
  | inf
  | negInf
deriving DecidableEq

/-- JS division `a / b`: for `b = 0` it yields NaN on `0 / 0`, +Infinity on
`positive / 0`, -Infinity on `negative / 0`; otherwise the exact quotient. -/
def jsDiv (a b : ℚ) : JSNum :=
  if b = 0 then
    if a = 0 then JSNum.nan
    else if 0 < a then JSNum.inf
    else JSNum.negInf
  else JSNum.num (a / b)

/-- JS multiplication of the quotient by 100: NaN and the infinities are
absorbing. -/
def jsMul100 : JSNum → JSNum
  | JSNum.num q => JSNum.num (q * 100)
  | JSNum.nan => JSNum.nan
  | JSNum.inf => JSNum.inf
  | JSNum.negInf => JSNum.negInf

/-- The progress value the tick actually computes, with JS
division-by-zero semantics:
`(Math.max(0, vidTime - startSeconds) / (endSeconds - startSeconds)) * 100`
of `handleTimeUpdate` (lines 192–195 of the source).  It agrees with the
rational `progress` field of `handleTimeUpdate` whenever the clip duration
is nonzero, and makes the degenerate zero-duration division visible as
NaN / Infinity instead of the rational convention `x / 0 = 0`. -/
def progressJS (clip : Clip) (vidTime : ℚ) : JSNum :=
  jsMul100 (jsDiv (max 0 (vidTime - clip.startSeconds))
    (clip.endSeconds - clip.startSeconds))

theorem accChars_nil (m : ℕ) : accChars [] m = 0 := by
  cases m <;> rfl

theorem accChars_zero (ws : List (List Char)) : accChars ws 0 = 0 := by
  cases ws <;> rfl

theorem accChars_cons (w : List Char) (ws : List (List Char)) (m : ℕ) :
    accChars (w :: ws) (m + 1) = (w.length + 1) + accChars ws m := rfl

theorem accChars_mono (ws : List (List Char)) :
    ∀ {m m' : ℕ}, m ≤ m' → accChars ws m ≤ accChars ws m' := by
  induction ws with
  | nil => intro m m' _; simp [accChars_nil]
  | cons w ws ih =>
    intro m m' h
    cases m with
    | zero => simp [accChars_zero]
    | succ n =>
      cases m' with
      | zero => omega
      | succ n' =>
        rw [accChars_cons, accChars_cons]
        have := ih (show n ≤ n' by omega)
        omega

theorem inWinFrom_cons_zero (cd T : ℚ) (w : List Char) (ws : List (List Char)) (a : ℕ) :
    inWinFrom cd T (w :: ws) a 0 ↔
      ((a : ℚ) * cd ≤ T ∧ T < ((a + (w.length + 1) : ℕ) : ℚ) * cd) := by
  unfold inWinFrom
  rw [accChars_zero, accChars_cons, accChars_zero]
  simp

theorem inWinFrom_cons_succ (cd T : ℚ) (w : List Char) (ws : List (List Char)) (a m : ℕ) :
    inWinFrom cd T (w :: ws) a (m + 1) ↔
      inWinFrom cd T ws (a + (w.length + 1)) m := by
  unfold inWinFrom
  rw [accChars_cons, accChars_cons,
    show a + (w.length + 1 + accChars ws m) = a + (w.length + 1) + accChars ws m by omega,
    show a + (w.length + 1 + accChars ws (m + 1)) = a + (w.length + 1) + accChars ws (m + 1) by omega,
    List.length_cons]
  exact ⟨fun ⟨h1, h2, h3⟩ => ⟨by omega, h2, h3⟩, fun ⟨h1, h2, h3⟩ => ⟨by omega, h2, h3⟩⟩

theorem wordWalk_some_iff (cd T : ℚ) :
    ∀ (ws : List (List Char)) (a i k : ℕ),
      wordWalk cd T ws a i = some k ↔
        ∃ m, k = i + m ∧ inWinFrom cd T ws a m ∧
          ∀ m', m' < m → ¬ inWinFrom cd T ws a m' := by
  intro ws
  induction ws with
  | nil =>
    intro a i k
    simp [wordWalk, inWinFrom]
  | cons w ws ih =>
    intro a i k
    rw [wordWalk]
    by_cases hP : ((a : ℚ) * cd ≤ T ∧ T < ((a + (w.length + 1) : ℕ) : ℚ) * cd)
    · rw [if_pos hP]
      constructor
      · intro h
        obtain rfl : i = k := by injection h
        exact ⟨0, by omega, (inWinFrom_cons_zero cd T w ws a).mpr hP,
          fun m' hm' => absurd hm' (Nat.not_lt_zero m')⟩
      · rintro ⟨m, hk, hin, hfirst⟩
        rcases Nat.eq_zero_or_pos m with hm | hm
        · subst hm; simp at hk; subst hk; rfl
        · exact absurd ((inWinFrom_cons_zero cd T w ws a).mpr hP) (hfirst 0 hm)
    · rw [if_neg hP]
      rw [ih (a + (w.length + 1)) (i + 1) k]
      constructor
      · rintro ⟨m, hk, hin, hfirst⟩
        refine ⟨m + 1, by omega, (inWinFrom_cons_succ cd T w ws a m).mpr hin, ?_⟩
        intro m' hm'
        cases m' with
        | zero =>
          intro hc
          exact hP ((inWinFrom_cons_zero cd T w ws a).mp hc)
        | succ n =>
          intro hc
          exact hfirst n (by omega) ((inWinFrom_cons_succ cd T w ws a n).mp hc)
      · rintro ⟨m, hk, hin, hfirst⟩
        cases m with
        | zero => exact absurd ((inWinFrom_cons_zero cd T w ws a).mp hin) hP
        | succ n =>
          refine ⟨n, by omega, (inWinFrom_cons_succ cd T w ws a n).mp hin, ?_⟩
          intro m' hm' hc
          exact hfirst (m' + 1) (by omega) ((inWinFrom_cons_succ cd T w ws a m').mpr hc)

theorem wordWalk_none_iff (cd T : ℚ) :
    ∀ (ws : List (List Char)) (a i : ℕ),
      wordWalk cd T ws a i = none ↔ ∀ m, ¬ inWinFrom cd T ws a m := by
  intro ws
  induction ws with
  | nil =>
    intro a i
    simp [wordWalk, inWinFrom]
  | cons w ws ih =>
    intro a i
    rw [wordWalk]
    by_cases hP : ((a : ℚ) * cd ≤ T ∧ T < ((a + (w.length + 1) : ℕ) : ℚ) * cd)
    · rw [if_pos hP]
      simp only [reduceCtorEq, false_iff, not_forall, not_not]
      exact ⟨0, (inWinFrom_cons_zero cd T w ws a).mpr hP⟩
    · rw [if_neg hP, ih (a + (w.length + 1)) (i + 1)]
      constructor
      · intro h m
        cases m with
        | zero => exact fun hc => hP ((inWinFrom_cons_zero cd T w ws a).mp hc)
        | succ n => exact fun hc => h n ((inWinFrom_cons_succ cd T w ws a n).mp hc)
      · intro h m hc
        exact h (m + 1) ((inWinFrom_cons_succ cd T w ws a m).mpr hc)

theorem jsWords_test :
    jsWords "this is a test" =
      [['t', 'h', 'i', 's'], ['i', 's'], ['a'], ['t', 'e', 's', 't']] := by
  decide

theorem len_test : ("this is a test" : String).length = 14 := by decide

/-- Claim C1: for a caption active at time `t`, the highlighted word is the
first word whose character-proportional window contains the elapsed time
`T = t - startSeconds`, with the last word as fallback once
`T ≥ 0.9 · D` if no window matched; on the spec scenario caption
(text "this is a test", 12s–16s) the active word at `t = 12.0` is "this"
(index 0) and at `t = 15.9` it is "test" (index 3). -/
theorem active_word_heuristic :
    (∀ (c : Caption) (t : ℚ) (i : ℕ),
      activeWordIndex c t = some i ↔
        ((wordHit c t i ∧ ∀ j, j < i → ¬ wordHit c t j) ∨
         ((∀ j, ¬ wordHit c t j) ∧
          (c.endSeconds - c.startSeconds) * (9 / 10) ≤ t - c.startSeconds ∧
          i = (jsWords c.text).length - 1)))
    ∧ activeWordIndex captionTest 12 = some 0
    ∧ (jsWords captionTest.text)[0]? = some "this".data
    ∧ activeWordIndex captionTest (159 / 10) = some 3
    ∧ (jsWords captionTest.text)[3]? = some "test".data := by
  refine ⟨?_, ?_, by decide, ?_, by decide⟩
  · intro c t i
    unfold activeWordIndex wordHit
    cases hw : wordWalk (charDurationOf c) (t - c.startSeconds) (jsWords c.text) 0 0 with
    | some j =>
      rw [wordWalk_some_iff] at hw
      obtain ⟨m, hj, hin, hfirst⟩ := hw
      obtain rfl : j = m := by omega
      constructor
      · intro h
        obtain rfl : j = i := by injection h
        exact Or.inl ⟨hin, hfirst⟩
      · rintro (⟨hin', hfirst'⟩ | ⟨hnone, _, _⟩)
        · rcases Nat.lt_trichotomy i j with hlt | heq | hgt
          · exact absurd hin' (hfirst i hlt)
          · rw [heq]
          · exact absurd hin (hfirst' j hgt)
        · exact absurd hin (hnone j)
    | none =>
      rw [wordWalk_none_iff] at hw
      split_ifs with hc
      · constructor
        · intro h
          obtain rfl : (jsWords c.text).length - 1 = i := by injection h
          exact Or.inr ⟨hw, hc, rfl⟩
        · rintro (⟨hin', _⟩ | ⟨_, _, rfl⟩)
          · exact absurd hin' (hw i)
          · rfl
      · constructor
        · intro h; exact absurd h (by simp)
        · rintro (⟨hin', _⟩ | ⟨_, hc', _⟩)
          · exact absurd hin' (hw i)
          · exact absurd hc' hc
  · simp only [activeWordIndex, charDurationOf, captionTest]
    rw [jsWords_test, len_test]
    simp only [wordWalk]
    norm_num
  · simp only [activeWordIndex, charDurationOf, captionTest]
    rw [jsWords_test, len_test]
    simp only [wordWalk]
    norm_num

theorem active_word_heuristic_witness :
    activeWordIndex captionTest 12 = some 0 :=
  (active_word_heuristic.1 captionTest 12 0).mpr
    (Or.inl ⟨by
      unfold wordHit inWinFrom charDurationOf captionTest
      rw [jsWords_test, len_test]
      norm_num [accChars],
      fun j hj => absurd hj (Nat.not_lt_zero j)⟩)

/-- Claim C2: the resolver returns the first caption (in list order) whose
window contains `t` — in particular every caption `c` with
`c.startSeconds ≤ t < c.endSeconds` preceded only by non-matching captions —
and returns none (a normal state, not an error) when `t` is outside every
caption's window; on the scenario caption (12s–16s) the resolver returns
none at `t = 16.1`. -/
theorem caption_resolver_spec :
    (∀ (l₁ l₂ : List Caption) (c : Caption) (t : ℚ),
      (∀ d ∈ l₁, ¬ (d.startSeconds ≤ t ∧ t ≤ d.endSeconds)) →
      c.startSeconds ≤ t → t < c.endSeconds →
      findActiveCaption (l₁ ++ c :: l₂) t = some c)
    ∧ (∀ (captions : List Caption) (t : ℚ),
      (∀ c ∈ captions, ¬ (c.startSeconds ≤ t ∧ t ≤ c.endSeconds)) →
      findActiveCaption captions t = none)
    ∧ findActiveCaption [captionTest] (161 / 10) = none := by
  refine ⟨?_, ?_, ?_⟩
  · intro l₁ l₂ c t h hcs hce
    induction l₁ with
    | nil =>
      simp only [List.nil_append, findActiveCaption]
      exact List.find?_cons_of_pos _ (by
        simp only [capMatches, decide_eq_true_eq]
        exact ⟨hcs, le_of_lt hce⟩)
    | cons d l₁ ih =>
      simp only [List.cons_append, findActiveCaption] at ih ⊢
      rw [List.find?_cons_of_neg]
      · exact ih (fun x hx => h x (List.mem_cons_of_mem d hx))
      · simp only [capMatches, decide_eq_true_eq]
        exact h d (List.mem_cons_self d l₁)
  · intro captions t h
    unfold findActiveCaption
    rw [List.find?_eq_none]
    intro x hx hc
    exact h x hx (of_decide_eq_true hc)
  · norm_num [findActiveCaption, List.find?, capMatches, captionTest]

theorem caption_resolver_witness :
    findActiveCaption [captionTest] 13 = some captionTest :=
  caption_resolver_spec.1 [] [] captionTest 13
    (fun d hd => absurd hd (List.not_mem_nil d))
    (by norm_num [captionTest]) (by norm_num [captionTest])

theorem inWinFrom_zero (cd T : ℚ) (ws : List (List Char)) (m : ℕ) :
    inWinFrom cd T ws 0 m ↔
      (m < ws.length ∧ ((accChars ws m : ℕ) : ℚ) * cd ≤ T ∧
        T < ((accChars ws (m + 1) : ℕ) : ℚ) * cd) := by
  unfold inWinFrom
  simp

theorem all_miss_ge (cd T : ℚ) (ws : List (List Char)) (hT : 0 ≤ T)
    (hmiss : ∀ m, ¬ inWinFrom cd T ws 0 m) :
    ((accChars ws ws.length : ℕ) : ℚ) * cd ≤ T := by
  suffices h : ∀ m, m ≤ ws.length → ((accChars ws m : ℕ) : ℚ) * cd ≤ T from
    h ws.length le_rfl
  intro m
  induction m with
  | zero => intro _; simpa [accChars_zero] using hT
  | succ n ihn =>
    intro hle
    have h1 := ihn (by omega)
    have h2 := hmiss n
    rw [inWinFrom_zero] at h2
    push_neg at h2
    exact h2 (by omega) h1

/-- Claim C8: within one caption (times between the caption's start and
end), the highlighted word's index never decreases as time increases,
fallback included. -/
theorem active_word_monotone (c : Caption) (t₁ t₂ : ℚ) (i₁ i₂ : ℕ)
    (hstart : c.startSeconds ≤ t₁) (h12 : t₁ ≤ t₂) (hend : t₂ ≤ c.endSeconds)
    (ha₁ : activeWordIndex c t₁ = some i₁)
    (ha₂ : activeWordIndex c t₂ = some i₂) :
    i₁ ≤ i₂ := by
  have hD : (0 : ℚ) ≤ c.endSeconds - c.startSeconds := by linarith
  have hcd : 0 ≤ charDurationOf c := by
    unfold charDurationOf
    apply div_nonneg hD
    positivity
  have key : ∀ m n : ℕ, m ≤ n →
      ((accChars (jsWords c.text) m : ℕ) : ℚ) * charDurationOf c ≤
        ((accChars (jsWords c.text) n : ℕ) : ℚ) * charDurationOf c := by
    intro m n h
    exact mul_le_mul_of_nonneg_right (by exact_mod_cast accChars_mono _ h) hcd
  unfold activeWordIndex at ha₁ ha₂
  cases hw₁ : wordWalk (charDurationOf c) (t₁ - c.startSeconds) (jsWords c.text) 0 0 with
  | some j₁ =>
    simp only [hw₁] at ha₁
    have e₁ : j₁ = i₁ := by injection ha₁
    rw [wordWalk_some_iff] at hw₁
    obtain ⟨m₁, hm₁, hin₁, hfi₁⟩ := hw₁
    rw [inWinFrom_zero] at hin₁
    obtain ⟨hlen₁, hlo₁, hhi₁⟩ := hin₁
    cases hw₂ : wordWalk (charDurationOf c) (t₂ - c.startSeconds) (jsWords c.text) 0 0 with
    | some j₂ =>
      simp only [hw₂] at ha₂
      have e₂ : j₂ = i₂ := by injection ha₂
      rw [wordWalk_some_iff] at hw₂
      obtain ⟨m₂, hm₂, hin₂, hfi₂⟩ := hw₂
      rw [inWinFrom_zero] at hin₂
      obtain ⟨hlen₂, hlo₂, hhi₂⟩ := hin₂
      by_contra hlt
      have hstep := key (m₂ + 1) m₁ (by omega)
      linarith
    | none =>
      simp only [hw₂] at ha₂
      rcases ite_eq_iff.mp ha₂ with ⟨hc₂, h₂⟩ | ⟨hc₂, h₂⟩
      · have e₂ : (jsWords c.text).length - 1 = i₂ := by injection h₂
        omega
      · exact absurd h₂ (by simp)
  | none =>
    simp only [hw₁] at ha₁
    rcases ite_eq_iff.mp ha₁ with ⟨hc₁, h₁⟩ | ⟨hc₁, h₁⟩
    swap
    · exact absurd h₁ (by simp)
    have e₁ : (jsWords c.text).length - 1 = i₁ := by injection h₁
    rw [wordWalk_none_iff] at hw₁
    have htot := all_miss_ge (charDurationOf c) (t₁ - c.startSeconds) (jsWords c.text)
      (by linarith) hw₁
    cases hw₂ : wordWalk (charDurationOf c) (t₂ - c.startSeconds) (jsWords c.text) 0 0 with
    | some j₂ =>
      simp only [hw₂] at ha₂
      rw [wordWalk_some_iff] at hw₂
      obtain ⟨m₂, hm₂, hin₂, hfi₂⟩ := hw₂
      rw [inWinFrom_zero] at hin₂
      obtain ⟨hlen₂, hlo₂, hhi₂⟩ := hin₂
      have hstep := key (m₂ + 1) (jsWords c.text).length (by omega)
      linarith
    | none =>
      simp only [hw₂] at ha₂
      rcases ite_eq_iff.mp ha₂ with ⟨hc₂, h₂⟩ | ⟨hc₂, h₂⟩
      · have e₂ : (jsWords c.text).length - 1 = i₂ := by injection h₂
        omega
      · exact absurd h₂ (by simp)

theorem active_word_monotone_witness :
    (0 : ℕ) ≤ 3 ∧ activeWordIndex captionTest 12 = some 0 ∧
      activeWordIndex captionTest (159 / 10) = some 3 :=
  have h₁ : activeWordIndex captionTest 12 = some 0 := by
    simp only [activeWordIndex, charDurationOf, captionTest]
    rw [jsWords_test, len_test]
    simp only [wordWalk]
    norm_num
  have h₂ : activeWordIndex captionTest (159 / 10) = some 3 := by
    simp only [activeWordIndex, charDurationOf, captionTest]
    rw [jsWords_test, len_test]
    simp only [wordWalk]
    norm_num
  ⟨active_word_monotone captionTest 12 (159 / 10) 0 3
      (by norm_num [captionTest]) (by norm_num) (by norm_num [captionTest]) h₁ h₂,
    h₁, h₂⟩

theorem handleTimeUpdate_progress (clip : Clip) (s : PlayerState) :
    (handleTimeUpdate clip s).progress =
      max 0 (s.vidTime - clip.startSeconds) /
        (clip.endSeconds - clip.startSeconds) * 100 := by
  simp only [handleTimeUpdate, finishExport]
  split_ifs <;> rfl

theorem handleTimeUpdate_isExporting (clip : Clip) (s : PlayerState) :
    (handleTimeUpdate clip s).isExporting = s.isExporting := by
  simp only [handleTimeUpdate, finishExport]
  split_ifs <;> rfl

/-- Claim C3: on a tick that has reached the clip's end boundary, an
in-progress export is finalized (recorder stopped, video paused, position
kept); otherwise the source is paused, rewound to the clip start, and
playback state becomes Stopped. -/
theorem clip_boundary_tick (clip : Clip) (s : PlayerState)
    (hb : clip.endSeconds ≤ s.vidTime) :
    (s.isExporting = true → s.recState = RecState.recording →
      (handleTimeUpdate clip s).recState = RecState.inactive ∧
      (handleTimeUpdate clip s).stopCount = s.stopCount + 1 ∧
      (handleTimeUpdate clip s).paused = true ∧
      (handleTimeUpdate clip s).vidTime = s.vidTime)
    ∧ (s.isExporting = false →
      (handleTimeUpdate clip s).paused = true ∧
      (handleTimeUpdate clip s).vidTime = clip.startSeconds ∧
      (handleTimeUpdate clip s).isPlaying = false) := by
  constructor
  · intro hexp hrec
    simp [handleTimeUpdate, finishExport, hb, hexp, hrec]
  · intro hexp
    simp [handleTimeUpdate, finishExport, hb, hexp]

theorem clip_boundary_tick_witness :
    (handleTimeUpdate clipTest sExport).recState = RecState.inactive ∧
      (handleTimeUpdate clipTest sExport).paused = true :=
  have h := (clip_boundary_tick clipTest sExport
    (by norm_num [clipTest, sExport, initialState])).1 rfl rfl
  ⟨h.1, h.2.2.1⟩

/-- Claim C4 counterexample: the claim says the progress percentage never
leaves [0,100], but a tick at absolute time 41 on the 10s–40s clip computes
progress (41-10)/30·100 = 103.33… > 100 (the code clamps below with
`Math.max(0, ...)` but has no upper clamp). -/
theorem progress_ratio_cex :
    100 < (handleTimeUpdate clipTest { initialState with vidTime := 41 }).progress := by
  rw [handleTimeUpdate_progress]
  norm_num [clipTest, initialState]

/-- Claim C4 amended: the tick's progress equals
`max 0 (t - start) / (end - start) · 100`: it is 0 at the clip start, 100
at the clip end, strictly increasing in between, never negative, and at
most 100 for every `t ≤ endSeconds` — but it exceeds 100 when the tick
time lies past the clip end (no upper clamp). -/
theorem progress_ratio_amended (clip : Clip) (s : PlayerState)
    (hdur : clip.startSeconds < clip.endSeconds) :
    (handleTimeUpdate clip s).progress =
        max 0 (s.vidTime - clip.startSeconds) /
          (clip.endSeconds - clip.startSeconds) * 100
    ∧ 0 ≤ (handleTimeUpdate clip s).progress
    ∧ (s.vidTime = clip.startSeconds → (handleTimeUpdate clip s).progress = 0)
    ∧ (s.vidTime = clip.endSeconds → (handleTimeUpdate clip s).progress = 100)
    ∧ (s.vidTime ≤ clip.endSeconds → (handleTimeUpdate clip s).progress ≤ 100)
    ∧ (∀ t₁ t₂ : ℚ, clip.startSeconds ≤ t₁ → t₁ < t₂ →
        (handleTimeUpdate clip { s with vidTime := t₁ }).progress <
          (handleTimeUpdate clip { s with vidTime := t₂ }).progress) := by
  have hD : 0 < clip.endSeconds - clip.startSeconds := by linarith
  refine ⟨handleTimeUpdate_progress clip s, ?_, ?_, ?_, ?_, ?_⟩
  · rw [handleTimeUpdate_progress]
    have h0 : (0 : ℚ) ≤ max 0 (s.vidTime - clip.startSeconds) := le_max_left 0 _
    positivity
  · intro hstart
    rw [handleTimeUpdate_progress, hstart]
    simp
  · intro hend
    rw [handleTimeUpdate_progress, hend,
      max_eq_right (by linarith : (0 : ℚ) ≤ clip.endSeconds - clip.startSeconds),
      div_self (by linarith : clip.endSeconds - clip.startSeconds ≠ 0)]
    norm_num
  · intro hle
    rw [handleTimeUpdate_progress]
    have h1 : max 0 (s.vidTime - clip.startSeconds) /
        (clip.endSeconds - clip.startSeconds) ≤ 1 :=
      (div_le_one hD).mpr (max_le (by linarith) (by linarith))
    linarith
  · intro t₁ t₂ h₁ h₂
    rw [handleTimeUpdate_progress, handleTimeUpdate_progress]
    simp only
    rw [max_eq_right (by linarith : (0 : ℚ) ≤ t₁ - clip.startSeconds),
      max_eq_right (by linarith : (0 : ℚ) ≤ t₂ - clip.startSeconds)]
    have h3 : t₁ - clip.startSeconds < t₂ - clip.startSeconds := by linarith
    have h4 := (div_lt_div_iff_of_pos_right hD).mpr h3
    linarith

theorem progress_ratio_witness :
    (handleTimeUpdate clipTest { initialState with vidTime := 25 }).progress = 50 := by
  rw [(progress_ratio_amended clipTest { initialState with vidTime := 25 }
    (by norm_num [clipTest])).1]
  norm_num [clipTest, initialState]

/-- Claim C5 counterexample: the claim says a play failure during export
stops the underlying capture, but the catch handler of
`handleDownloadClip` only logs the error and clears `isExporting`: the
recorder, already started, is left in the recording state. -/
theorem export_abort_cex :
    (handleDownloadClip clipTest true initialState).recState = RecState.recording ∧
      RecState.recording ≠ RecState.inactive :=
  ⟨rfl, by decide⟩

/-- Claim C5 amended: if starting playback during an export fails, the
export status returns to Idle (`isExporting = false`), one non-fatal error
is logged, and no file download is triggered; the chunk buffer was cleared
at export start, but the underlying capture is NOT stopped — the recorder
remains recording. -/
theorem export_abort_amended (clip : Clip) (s : PlayerState) :
    (handleDownloadClip clip true s).isExporting = false
    ∧ (handleDownloadClip clip true s).errorLogged = true
    ∧ (handleDownloadClip clip true s).downloadCount = s.downloadCount
    ∧ (handleDownloadClip clip true s).lastDownload = s.lastDownload
    ∧ (handleDownloadClip clip true s).chunks = 0
    ∧ (handleDownloadClip clip true s).recState = RecState.recording := by
  simp [handleDownloadClip]

/-- Claim C6 counterexample: the claim says a zero-length clip resolves to
zero progress, but on the zero-length clip (5s–5s) the tick's progress
expression computes `(0/0) * 100 = NaN` at the clip start — not zero — and
`(positive/0) * 100 = Infinity` at any position past it. -/
theorem timing_data_cex :
    progressJS clipZero clipZero.startSeconds = JSNum.nan ∧
      JSNum.nan ≠ JSNum.num 0 ∧
      progressJS clipZero 6 = JSNum.inf := by
  refine ⟨?_, by decide, ?_⟩
  · norm_num [progressJS, jsDiv, jsMul100, clipZero]
  · norm_num [progressJS, jsDiv, jsMul100, clipZero]

/-- Claim C6 amended: timing-data inconsistencies never raise an error:
the resolver always returns none or a caption of the list whose window
contains `t` (total, no error state), a caption whose window is disjoint
from the clip's bounds is never the resolved caption for a time inside
the clip, and a zero-length clip does not crash the tick — the handler
completes, pausing and rewinding into the replayable Stopped state — but
its computed progress is not zero: under JS division semantics it is NaN
at the clip start and Infinity past it, while the rational `progress`
field agrees with the JS value exactly when the clip duration is
nonzero. -/
theorem timing_data_tolerance :
    (∀ (captions : List Caption) (t : ℚ),
      findActiveCaption captions t = none ∨
        ∃ c, findActiveCaption captions t = some c ∧ c ∈ captions ∧
          c.startSeconds ≤ t ∧ t ≤ c.endSeconds)
    ∧ (∀ (clip : Clip) (captions : List Caption) (c : Caption) (t : ℚ),
        c ∈ captions →
        (c.endSeconds < clip.startSeconds ∨ clip.endSeconds < c.startSeconds) →
        clip.startSeconds ≤ t → t ≤ clip.endSeconds →
        findActiveCaption captions t ≠ some c)
    ∧ (∀ (clip : Clip) (s : PlayerState),
        clip.endSeconds = clip.startSeconds → s.vidTime = clip.startSeconds →
        s.isExporting = false →
        (handleTimeUpdate clip s).paused = true ∧
        (handleTimeUpdate clip s).vidTime = clip.startSeconds ∧
        (handleTimeUpdate clip s).isPlaying = false)
    ∧ (∀ clip : Clip, clip.endSeconds = clip.startSeconds →
        progressJS clip clip.startSeconds = JSNum.nan)
    ∧ (∀ (clip : Clip) (t : ℚ), clip.endSeconds = clip.startSeconds →
        clip.startSeconds < t → progressJS clip t = JSNum.inf)
    ∧ (∀ (clip : Clip) (s : PlayerState),
        clip.endSeconds - clip.startSeconds ≠ 0 →
        progressJS clip s.vidTime =
          JSNum.num ((handleTimeUpdate clip s).progress)) := by
  refine ⟨?_, ?_, ?_, ?_, ?_, ?_⟩
  · intro captions t
    cases h : findActiveCaption captions t with
    | none => exact Or.inl rfl
    | some c =>
      refine Or.inr ⟨c, rfl, List.mem_of_find?_eq_some h, ?_⟩
      have hp := List.find?_some h
      rw [capMatches, decide_eq_true_eq] at hp
      exact hp
  · intro clip captions c t hmem hdis h1 h2 hsome
    unfold findActiveCaption at hsome
    have hp := List.find?_some hsome
    rw [capMatches, decide_eq_true_eq] at hp
    rcases hdis with hd | hd
    · linarith [hp.1, hp.2]
    · linarith [hp.1, hp.2]
  · intro clip s hzero hvid hexp
    have hb : clip.endSeconds ≤ s.vidTime := by rw [hzero, hvid]
    simp [handleTimeUpdate, finishExport, hb, hexp]
  · intro clip hzero
    unfold progressJS jsDiv jsMul100
    rw [hzero]
    simp
  · intro clip t hzero ht
    have ha : max 0 (t - clip.startSeconds) = t - clip.startSeconds :=
      max_eq_right (by linarith)
    unfold progressJS jsDiv jsMul100
    rw [hzero, sub_self, ha, if_pos rfl,
      if_neg (by simp only [sub_eq_zero]; exact ht.ne'),
      if_pos (by linarith)]
  · intro clip s hne
    unfold progressJS jsDiv jsMul100
    rw [if_neg hne, handleTimeUpdate_progress]

theorem timing_data_tolerance_witness :
    findActiveCaption [captionFar] 20 ≠ some captionFar ∧
      progressJS clipTest 25 =
        JSNum.num ((handleTimeUpdate clipTest
          { initialState with vidTime := 25 }).progress) :=
  ⟨timing_data_tolerance.2.1 clipTest [captionFar] captionFar 20
      (List.mem_singleton_self _)
      (Or.inr (by norm_num [clipTest, captionFar]))
      (by norm_num [clipTest]) (by norm_num [clipTest]),
    timing_data_tolerance.2.2.2.2.2 clipTest { initialState with vidTime := 25 }
      (by norm_num [clipTest])⟩

theorem handleTimeUpdate_recState (clip : Clip) (s : PlayerState) :
    (handleTimeUpdate clip s).recState =
      if clip.endSeconds ≤ s.vidTime ∧ s.isExporting = true ∧
          s.recState = RecState.recording
      then RecState.inactive else s.recState := by
  simp only [handleTimeUpdate, finishExport]
  split_ifs <;> simp_all

theorem handleTimeUpdate_stopCount (clip : Clip) (s : PlayerState) :
    (handleTimeUpdate clip s).stopCount =
      if clip.endSeconds ≤ s.vidTime ∧ s.isExporting = true ∧
          s.recState = RecState.recording
      then s.stopCount + 1 else s.stopCount := by
  simp only [handleTimeUpdate, finishExport]
  split_ifs <;> simp_all

theorem runTicks_stopCount (clip : Clip) :
    ∀ (ts : List ℚ) (s : PlayerState),
      s.isExporting = true →
      ((s.recState = RecState.recording ∧ s.stopCount = 0) ∨
        (s.recState = RecState.inactive ∧ s.stopCount = 1)) →
      (runTicks clip s ts).stopCount ≤ 1 ∧
        ((runTicks clip s ts).stopCount = 1 ↔
          (s.recState = RecState.inactive ∨ ∃ t ∈ ts, clip.endSeconds ≤ t)) := by
  intro ts
  induction ts with
  | nil =>
    intro s hexp hinv
    rcases hinv with ⟨hr, hc⟩ | ⟨hr, hc⟩ <;>
      exact ⟨by simp [runTicks, hc], by simp [runTicks, hc, hr]⟩
  | cons t ts ih =>
    intro s hexp hinv
    rw [runTicks]
    have hexp' : (handleTimeUpdate clip { s with vidTime := t }).isExporting = true := by
      rw [handleTimeUpdate_isExporting]; exact hexp
    rcases hinv with ⟨hr, hc⟩ | ⟨hr, hc⟩
    · by_cases hb : clip.endSeconds ≤ t
      · have hrec : (handleTimeUpdate clip { s with vidTime := t }).recState =
            RecState.inactive := by
          rw [handleTimeUpdate_recState]
          simp [hb, hexp, hr]
        have hcnt : (handleTimeUpdate clip { s with vidTime := t }).stopCount = 1 := by
          rw [handleTimeUpdate_stopCount]
          simp [hb, hexp, hr, hc]
        obtain ⟨ih1, ih2⟩ := ih _ hexp' (Or.inr ⟨hrec, hcnt⟩)
        refine ⟨ih1, ?_⟩
        rw [ih2]
        constructor
        · intro _
          exact Or.inr ⟨t, List.mem_cons_self t ts, hb⟩
        · intro _
          exact Or.inl hrec
      · have hrec : (handleTimeUpdate clip { s with vidTime := t }).recState =
            s.recState := by
          rw [handleTimeUpdate_recState]
          simp [hb]
        have hcnt : (handleTimeUpdate clip { s with vidTime := t }).stopCount =
            s.stopCount := by
          rw [handleTimeUpdate_stopCount]
          simp [hb]
        obtain ⟨ih1, ih2⟩ := ih _ hexp'
          (Or.inl ⟨by rw [hrec]; exact hr, by rw [hcnt]; exact hc⟩)
        refine ⟨ih1, ?_⟩
        rw [ih2]
        constructor
        · rintro (h | ⟨u, hu, hub⟩)
          · rw [hrec, hr] at h
            exact absurd h (by decide)
          · exact Or.inr ⟨u, List.mem_cons_of_mem t hu, hub⟩
        · rintro (h | ⟨u, hu, hub⟩)
          · rw [hr] at h
            exact absurd h (by decide)
          · rcases List.mem_cons.mp hu with rfl | hu2
            · exact absurd hub hb
            · exact Or.inr ⟨u, hu2, hub⟩
    · have hrec : (handleTimeUpdate clip { s with vidTime := t }).recState =
          RecState.inactive := by
        rw [handleTimeUpdate_recState]
        simp [hr]
      have hcnt : (handleTimeUpdate clip { s with vidTime := t }).stopCount = 1 := by
        rw [handleTimeUpdate_stopCount]
        simp [hr, hc]
      obtain ⟨ih1, ih2⟩ := ih _ hexp' (Or.inr ⟨hrec, hcnt⟩)
      refine ⟨ih1, ?_⟩
      rw [ih2]
      constructor
      · intro _
        exact Or.inl hr
      · intro _
        exact Or.inl hrec

/-- Claim C7: an export on a clip of duration `D` finalizes exactly once —
over any tick trace the recorder `stop()` fires at most once, it fires
exactly when some tick's elapsed time reaches `D`, and never when all
ticks are short of `D`; and the capture-stop call `finishExport` is
idempotent and a no-op on an already-inactive (or absent) recorder, so a
double invocation cannot stop or finalize twice. -/
theorem export_finalize_once (clip : Clip) (ts : List ℚ) :
    (∀ s : PlayerState, finishExport (finishExport s) = finishExport s)
    ∧ (∀ s : PlayerState, s.recState ≠ RecState.recording → finishExport s = s)
    ∧ (runTicks clip (exportStart clip) ts).stopCount ≤ 1
    ∧ ((runTicks clip (exportStart clip) ts).stopCount = 1 ↔
        ∃ t ∈ ts, clip.endSeconds - clip.startSeconds ≤ t - clip.startSeconds)
    ∧ ((∀ t ∈ ts, t - clip.startSeconds < clip.endSeconds - clip.startSeconds) →
        (runTicks clip (exportStart clip) ts).stopCount = 0) := by
  obtain ⟨h1, h2⟩ := runTicks_stopCount clip ts (exportStart clip) rfl (Or.inl ⟨rfl, rfl⟩)
  have hiff : (runTicks clip (exportStart clip) ts).stopCount = 1 ↔
      ∃ t ∈ ts, clip.endSeconds - clip.startSeconds ≤ t - clip.startSeconds := by
    rw [h2]
    constructor
    · rintro (h | ⟨u, hu, hub⟩)
      · exact absurd h (by simp [exportStart, handleDownloadClip, initialState])
      · exact ⟨u, hu, by linarith⟩
    · rintro ⟨u, hu, hub⟩
      exact Or.inr ⟨u, hu, by linarith⟩
  refine ⟨?_, ?_, h1, hiff, ?_⟩
  · intro s
    by_cases hr : s.recState = RecState.recording
    · simp [finishExport, hr]
    · simp [finishExport, hr]
  · intro s h
    unfold finishExport
    rw [if_neg h]
  · intro hall
    by_contra hne
    have hone : (runTicks clip (exportStart clip) ts).stopCount = 1 := by omega
    rw [hiff] at hone
    obtain ⟨u, hu, hub⟩ := hone
    linarith [hall u hu]

theorem export_finalize_witness :
    (runTicks clipTest (exportStart clipTest) [20, 30, 40]).stopCount = 1 :=
  (export_finalize_once clipTest [20, 30, 40]).2.2.2.1.mpr
    ⟨40, by norm_num, by norm_num [clipTest]⟩

/-- Claim C9: the exported file's name is the clip title with every
character outside the ASCII alphanumerics replaced by an underscore,
followed by the ".webm" extension: position-by-position the sanitized stem
matches the title, the suffix is ".webm", the finalize handler downloads
under exactly that name, and e.g. "My Clip #1!" exports as
"My_Clip__1_.webm". -/
theorem export_filename_spec :
    (∀ (title : String) (i : ℕ), i < title.data.length →
      (exportFileName title).data[i]? = (title.data[i]?).map sanitizeChar)
    ∧ (∀ title : String,
        (exportFileName title).data.length = title.data.length + 5)
    ∧ (∀ title : String,
        (exportFileName title).data.drop title.data.length = ".webm".data)
    ∧ (∀ (clip : Clip) (s : PlayerState),
        (recorderOnStop clip s).lastDownload = some (exportFileName clip.title))
    ∧ exportFileName "My Clip #1!" = "My_Clip__1_.webm" := by
  have hdata : ∀ title : String,
      (exportFileName title).data = title.data.map sanitizeChar ++ (".webm").data := by
    intro title
    rw [exportFileName, String.data_append]
  refine ⟨?_, ?_, ?_, ?_, by decide⟩
  · intro title i h
    rw [hdata, List.getElem?_append, if_pos (by simpa using h)]
    simp
  · intro title
    have h5 : (".webm" : String).data.length = 5 := by decide
    simp [hdata, h5]
  · intro title
    have hlen : (title.data.map sanitizeChar).length = title.data.length :=
      List.length_map _ _
    rw [hdata, ← hlen, List.drop_left]
  · intro clip s
    simp [recorderOnStop]

theorem export_filename_witness :
    (exportFileName "My Clip #1!").data[2]? =
      ("My Clip #1!".data[2]?).map sanitizeChar :=
  export_filename_spec.1 "My Clip #1!" 2 (by decide)

theorem timeParts_nonneg (s : String) : ∀ q ∈ timeParts s, 0 ≤ q := by
  intro q hq
  unfold timeParts at hq
  obtain ⟨p, _, rfl⟩ := List.mem_map.mp hq
  exact_mod_cast Nat.zero_le (natOfDigits p)

/-- Claim C10: `parseTime` is total and never negative: after stripping
every character but digits and colons, exactly two colon-separated parts
yield minutes·60 + seconds, exactly three yield hours·3600 + minutes·60 +
seconds, and any other shape — the empty string or a single colon-free
number included — yields 0. -/
theorem parseTime_spec :
    (∀ s : String, 0 ≤ parseTime s)
    ∧ (∀ (s : String) (a b : ℚ), s ≠ "" → timeParts s = [a, b] →
        parseTime s = a * 60 + b)
    ∧ (∀ (s : String) (a b c : ℚ), s ≠ "" → timeParts s = [a, b, c] →
        parseTime s = a * 3600 + b * 60 + c)
    ∧ (∀ s : String, s ≠ "" → (timeParts s).length ≠ 2 →
        (timeParts s).length ≠ 3 → parseTime s = 0)
    ∧ parseTime "" = 0
    ∧ parseTime "90" = 0
    ∧ parseTime "1:30" = 90 := by
  refine ⟨?_, ?_, ?_, ?_, rfl, rfl, ?_⟩
  · intro s
    unfold parseTime
    split_ifs with he
    · norm_num
    · rcases hps : timeParts s with _ | ⟨a, _ | ⟨b, _ | ⟨c, _ | ⟨d, rest⟩⟩⟩⟩
      · simp [hps]
      · simp [hps]
      · have ha := timeParts_nonneg s a (by rw [hps]; simp)
        have hb := timeParts_nonneg s b (by rw [hps]; simp)
        simp only [hps]
        nlinarith
      · have ha := timeParts_nonneg s a (by rw [hps]; simp)
        have hb := timeParts_nonneg s b (by rw [hps]; simp)
        have hc := timeParts_nonneg s c (by rw [hps]; simp)
        simp only [hps]
        nlinarith
      · simp [hps]
  · intro s a b hne hps
    unfold parseTime
    rw [if_neg hne]
    simp [hps]
  · intro s a b c hne hps
    unfold parseTime
    rw [if_neg hne]
    simp [hps]
  · intro s hne h2 h3
    unfold parseTime
    rw [if_neg hne]
    rcases hps : timeParts s with _ | ⟨a, _ | ⟨b, _ | ⟨c, _ | ⟨d, rest⟩⟩⟩⟩
    · simp [hps]
    · simp [hps]
    · rw [hps] at h2
      simp at h2
    · rw [hps] at h3
      simp at h3
    · simp [hps]
  · have hp : timeParts "1:30" = [1, 30] := by decide
    unfold parseTime
    rw [if_neg (by decide)]
    simp only [hp]
    norm_num

theorem parseTime_spec_witness : parseTime "12:34" = 12 * 60 + 34 :=
  parseTime_spec.2.1 "12:34" 12 34 (by decide) (by decide)
